import Mathlib

/-!
Verification of the `parallel` command-line utility (src/parallel.cpp).

The development embeds the program's pure core in Lean:

* `splitCore` / `Split` — the tokenizer (`Split` in the C++ source), a
  character-by-character scan with an `in_quote` flag and a one-character
  lookahead (`*(p + 1)`; at the end of the string the lookahead is the NUL
  terminator of the C string).
* `Stats`, `PrintStatsAux`, `PrintStats` — the statistics aggregator.
  C++ `double` arithmetic on the exact integer microsecond values is
  modelled by `ℚ`; the one IEEE hazard the code can hit, `0.0 / 0`
  (a NaN), is modelled explicitly by `Option ℚ` with `none` for NaN.
* `childRun`, `runCommand` — the fork/exec/wait invoker, with the OS
  outcomes (fork failure, exec failure with an errno, wait failure, the
  monotonic-clock timestamps, the child status word that `waitpid` fills
  in) supplied as explicit data, and `strerror` as an abstract function.
* `assignSlots`, `dispatchStats` — the dispatcher loop of `main`: slot
  indices are assigned by `stat_index++` in the nested command/replica
  loops, and the post-join contents of the `stats` vector are the results
  of the per-slot tasks.
* `stoi`, `parseArgsLoop`, `ParseArgs` — the argument parser, with
  `std::stoi` modelled (sign, longest digit run, `int` range check) and
  the `int` → `size_t` conversion of the parallelism value made explicit.
-/

namespace Parallel

/-- Exit status used for internal errors prior to the exec attempt
(fork or wait failure). Copied from coreutils in the source. -/
def EXIT_CANCELED : Nat := 125

/-- Exit status for a program that was located but is not usable. -/
def EXIT_CANNOT_INVOKE : Nat := 126

/-- Exit status when the program to exec could not be found. -/
def EXIT_ENOENT : Nat := 127

/-- The Linux errno value for ENOENT ("no such file or directory"). -/
def ENOENT : Nat := 2

/-- The NUL character that terminates a C string; it is what the
lookahead `*(p + 1)` reads when `p` is the last character. -/
def nulChar : Char := Char.ofNat 0

/-- The final flush of `Split` (src/parallel.cpp lines 70-72): push the
remaining accumulated text if it is non-empty. -/
def flushArg (result : List String) (arg : String) : List String :=
  if arg.isEmpty then result else result ++ [arg]

/-- The scanning loop of `Split` (src/parallel.cpp lines 46-68) followed by
the final flush (lines 70-72).  State: the remaining characters, the
`result` vector accumulated so far, the current token `arg`, and the
`in_quote` flag.  The C++ loop reads one character `*p` per iteration and
peeks at `*(p + 1)`; the `""` escape consumes the second quote with `p++`.
The one-element case is the last loop iteration, where the lookahead reads
the NUL terminator of the C string; the flush after the loop is inlined
there (`flushArg`). -/
def splitCore (sep : Char) : List Char → List String → String → Bool → List String
  | [], result, arg, _ =>
      flushArg result arg
  | [p], result, arg, in_quote =>
      if p = sep ∧ ¬ in_quote then
        -- either `arg` was pushed and cleared, or it was already empty;
        -- the final flush then pushes nothing
        flushArg result arg
      else if p = '"' then
        (if in_quote ∧ nulChar ≠ sep then
           -- the lookahead NUL is not `'"'`, so the unconditional
           -- `result.push_back(arg)` branch runs and clears `arg`
           (if nulChar = '"' then flushArg result (arg.push '"')
            else result ++ [arg])
         else flushArg result arg)
      else
        (if (p ≠ ' ' ∧ p ≠ '\n') ∨ in_quote then flushArg result (arg.push p)
         else flushArg result arg)
  | p :: next :: rest2, result, arg, in_quote =>
      if p = sep ∧ ¬ in_quote then
        (if arg.isEmpty then splitCore sep (next :: rest2) result arg in_quote
         else splitCore sep (next :: rest2) (result ++ [arg]) "" in_quote)
      else if p = '"' then
        (if in_quote ∧ next ≠ sep then
           (if next = '"' then
              splitCore sep rest2 result (arg.push '"') (!in_quote)
            else
              splitCore sep (next :: rest2) (result ++ [arg]) "" (!in_quote))
         else splitCore sep (next :: rest2) result arg (!in_quote))
      else
        (if (p ≠ ' ' ∧ p ≠ '\n') ∨ in_quote then
           splitCore sep (next :: rest2) result (arg.push p) in_quote
         else splitCore sep (next :: rest2) result arg in_quote)

/-- Function `Split` from src/parallel.cpp lines 42-75: split a command line by
`separator`, treating a double-quoted string as a single argument. -/
def Split (argv : String) (separator : Char) : List String :=
  splitCore separator argv.data [] "" false

/-- The per-invocation record (struct `Stats`, src/parallel.cpp lines 77-80):
`success` flag and the elapsed wall-clock time in microseconds
(`long long elapsed_us`). -/
structure Stats where
  success : Bool := false
  elapsed_us : Int := 0
deriving DecidableEq, Repr, Inhabited

/-- The accumulation loop of `PrintStats` (src/parallel.cpp lines 126-137).
State `(mn, av, mx, c)` mirrors the local variables `min`, `avg`, `max`
(C++ `double`, modelled exactly by `ℚ` — all values involved are integer
microsecond counts and their sums) and `success_count`. -/
def PrintStatsAux : List Stats → ℚ → ℚ → ℚ → Nat → ℚ × ℚ × ℚ × Nat
  | [], mn, av, mx, c => (mn, av, mx, c)
  | stat :: rest, mn, av, mx, c =>
      if stat.success then
        (if c = 0 then
           PrintStatsAux rest (stat.elapsed_us : ℚ) (stat.elapsed_us : ℚ)
             (stat.elapsed_us : ℚ) 1
         else
           PrintStatsAux rest (min mn (stat.elapsed_us : ℚ))
             (av + (stat.elapsed_us : ℚ)) (max mx (stat.elapsed_us : ℚ)) (c + 1))
      else PrintStatsAux rest mn av mx c

/-- Function `PrintStats` (src/parallel.cpp lines 123-142), as the triple of values
printed on the `Min:`/`Avg:`/`Max:` lines, in milliseconds.  After the
loop the code runs `avg /= success_count` unconditionally; when
`success_count = 0` this is the IEEE division `0.0 / 0`, which yields NaN —
modelled here as `none` (every other value the code can print is a finite
rational and is modelled as `some`/plain `ℚ`). -/
def PrintStats (stats : List Stats) : ℚ × Option ℚ × ℚ :=
  let r := PrintStatsAux stats 0 0 0 0
  let avg : Option ℚ := if r.2.2.2 = 0 then none else some (r.2.1 / (r.2.2.2 : ℚ))
  (r.1 / 1000, avg.map (fun a => a / 1000), r.2.2.1 / 1000)

/-- The elapsed durations (as exact rationals, in microseconds) of the
`success = true` entries — the subset the spec's `summarize` aggregates. -/
def successElapsed (stats : List Stats) : List ℚ :=
  (stats.filter (fun s => s.success)).map (fun s => (s.elapsed_us : ℚ))

/-- Minimum of a list of rationals (`0` for the empty list, matching the
aggregator's initialisation). -/
def listMin : List ℚ → ℚ
  | [] => 0
  | x :: xs => xs.foldl min x

/-- Maximum of a list of rationals (`0` for the empty list). -/
def listMax : List ℚ → ℚ
  | [] => 0
  | x :: xs => xs.foldl max x

/-- What the child process does after a successful fork
(src/parallel.cpp lines 91-107): either the exec succeeds and the process
image is replaced by the target program, or exec returns with an errno and
the child prints a diagnostic and `_exit`s. -/
inductive ChildOutcome where
  /-- Case where `execvp` succeeded: the child now runs the given argument vector
  (`none` is the terminating null pointer pushed at line 97). -/
  | execed (args : List (Option String)) : ChildOutcome
  /-- Case where `execvp` returned: the child wrote `diag` to stderr and called
  `_exit code`. -/
  | exited (code : Nat) (diag : String) : ChildOutcome
deriving DecidableEq, Repr

/-- The argument vector the child hands to `execvp`
(src/parallel.cpp lines 92-97): a pointer to each token of
`Split command ' '`, then a null pointer. -/
def childArgs (command : String) : List (Option String) :=
  (Split command ' ').map (fun a => some a) ++ [none]

/-- The child branch of `runCommand` (src/parallel.cpp lines 91-107).
`execResult` is the outcome of the external `execvp` call: `none` when the
exec succeeds (it does not return), `some errno` when it fails; `strerror`
is the external libc message table. -/
def childRun (strerror : Nat → String) (command : String)
    (execResult : Option Nat) : ChildOutcome :=
  match execResult with
  | none => .execed (childArgs command)
  | some saved_errno =>
      .exited (if saved_errno = ENOENT then EXIT_ENOENT else EXIT_CANNOT_INVOKE)
        ("Cannot run \x27" ++ command ++ "\x27: " ++ strerror saved_errno)

/-- The OS-level events one call of `runCommand` observes in the parent
process: whether `fork` fails (and with what errno), whether `waitpid`
fails (and with what errno), the status word `waitpid` stores (the child's
exit status — the code never reads it), and the two monotonic-clock
readings in microseconds. -/
structure OSEvents where
  forkFails : Bool
  forkErrno : Nat
  waitFails : Bool
  waitErrno : Nat
  childStatus : Int
  startT : Int
  endT : Int
deriving DecidableEq, Repr

/-- Outcome of `runCommand` in the parent process. -/
inductive RunResult where
  /-- The whole program was terminated with `_exit code` (after writing
  `diag` to stderr). -/
  | fatal (code : Nat) (diag : String) : RunResult
  /-- Case where `runCommand` returned, having stored `s` in its result slot. -/
  | done (s : Stats) : RunResult
deriving DecidableEq, Repr

/-- The parent branch of `runCommand` (src/parallel.cpp lines 82-121):
fork failure exits the program with `EXIT_CANCELED`; wait failure exits
the program with `EXIT_CANCELED`; otherwise `success := true` and
`elapsed_us` is the difference of the two clock readings, regardless of
`os.childStatus`. -/
def runCommand (strerror : Nat → String) (command : String)
    (os : OSEvents) : RunResult :=
  if os.forkFails then
    .fatal EXIT_CANCELED ("Cannot fork: " ++ strerror os.forkErrno)
  else if os.waitFails then
    .fatal EXIT_CANCELED
      ("Failed waiting for \x27" ++ command ++ "\x27: " ++ strerror os.waitErrno)
  else
    .done { success := true, elapsed_us := os.endT - os.startT }

/-- The slot-assignment of `main`'s fan-out loops
(src/parallel.cpp lines 188-194): for each command in order, `n` replicas,
each taking the next value of `stat_index` — returns the list of
`(slot index, command)` pairs in spawn order, starting at `idx`. -/
def assignSlots : List String → Nat → Nat → List (Nat × String)
  | [], _, _ => []
  | c :: cs, n, idx =>
      (List.range n).map (fun j => (idx + j, c)) ++ assignSlots cs n (idx + n)

/-- The contents of the `stats` vector after the join loop
(src/parallel.cpp lines 196-198): slot `k` holds the result its task wrote
(`run` is the per-task result, i.e. the `Stats` that `runCommand` stores for
that command). The join barrier is what makes this sequential description
of the slots valid. -/
def dispatchStats (run : String → Stats) (commands : List String) (n : Nat) :
    List Stats :=
  (assignSlots commands n 0).map (fun p => run p.2)

/-- The C whitespace class used by `std::stoi` via `isspace` in the "C"
locale. -/
def isSpaceC (c : Char) : Bool :=
  c = ' ' ∨ c = '\t' ∨ c = '\n' ∨ c = Char.ofNat 11 ∨ c = Char.ofNat 12 ∨
    c = '\r'

/-- Model of `std::stoi` (external library): skip leading whitespace, an
optional sign, then the longest run of decimal digits; `none` when there is
no digit (`invalid_argument`) or the value is outside `int` range
(`out_of_range`) — both exceptions are caught by `ParseArgs` and turned
into a usage error. -/
def stoi (s : String) : Option Int :=
  let cs := s.data.dropWhile (fun c => isSpaceC c)
  let sign : Int := match cs with
    | '-' :: _ => -1
    | _ => 1
  let cs2 := match cs with
    | '-' :: rest => rest
    | '+' :: rest => rest
    | _ => cs
  let digits := cs2.takeWhile (fun c => c.isDigit)
  if digits.isEmpty then none
  else
    let v : Int :=
      sign * ((digits.foldl (fun acc c => acc * 10 + (c.toNat - 48)) 0 : Nat) : Int)
    if v < -(2 ^ 31) ∨ (2 ^ 31 - 1 : Int) < v then none else some v

/-- The argument loop of `ParseArgs` (src/parallel.cpp lines 152-166) and
the final empty-command check (lines 168-170).  `none` models
`PrintUsageAndExit` (usage error, `_exit 1`).  The `int` value out of
`std::stoi` is stored into the `size_t parallelism`, i.e. reduced
mod `2 ^ 64`. -/
def parseArgsLoop : List String → List String → Nat → Option (List String × Nat)
  | [], commands, parallelism =>
      if commands.isEmpty then none else some (commands, parallelism)
  | a :: rest, commands, parallelism =>
      if a = "-n" ∨ a = "--n" then
        match rest with
        | [] => none
        | v :: rest2 =>
            match stoi v with
            | none => none
            | some i => parseArgsLoop rest2 commands ((i % (2 ^ 64 : Int)).toNat)
      else parseArgsLoop rest (commands ++ [a]) parallelism

/-- Function `ParseArgs` (src/parallel.cpp lines 149-173) on `argv[1..]`:
default parallelism `1`. -/
def ParseArgs (args : List String) : Option (List String × Nat) :=
  parseArgsLoop args [] 1

/-- Written from the spec's words, for comparison with `Split`: split on
runs of separator characters (spaces and newlines), dropping empty
pieces.  `result` and `arg` are the accumulated pieces and current piece. -/
def specWsSplitAux : List Char → List String → String → List String
  | [], result, arg => if arg.isEmpty then result else result ++ [arg]
  | c :: rest, result, arg =>
      if c = ' ' ∨ c = '\n' then
        (if arg.isEmpty then specWsSplitAux rest result ""
         else specWsSplitAux rest (result ++ [arg]) "")
      else specWsSplitAux rest result (arg.push c)

/-- Written from the spec's words: `tokenize` for quote-free commands as
the spec describes it — split on runs of spaces/newlines, empty pieces
dropped. -/
def specWsSplit (s : String) : List String :=
  specWsSplitAux s.data [] ""

/-- A concrete `strerror` table for witness instantiations. -/
def strerrorW : Nat → String := fun n => "E" ++ toString n

/-- Witness `OSEvents`: fork and wait both succeed; the child status word
is nonzero (the child exited unsuccessfully); the clock advanced by 250µs. -/
def osW : OSEvents := ⟨false, 0, false, 0, 256, 100, 350⟩

/-- Witness `OSEvents`: fork fails with errno 7. -/
def osForkFailW : OSEvents := ⟨true, 7, false, 0, 0, 0, 0⟩

/-- Witness `OSEvents`: fork succeeds, wait fails with errno 9. -/
def osWaitFailW : OSEvents := ⟨false, 0, true, 9, 0, 0, 0⟩

/-- Witness task-result function for dispatcher instantiations. -/
def runW : String → Stats := fun c => ⟨true, (c.length : Int)⟩

/-- Witness result list: successes of 10ms, 30ms, 20ms and one failed
entry whose elapsed value must not count. -/
def statsW : List Stats :=
  [⟨true, 10000⟩, ⟨false, 999⟩, ⟨true, 30000⟩, ⟨true, 20000⟩]

/-!  Theorems.  -/

/-- Claim C1 (the code violates it): with no successful entries — the empty
list or an all-failure list — `PrintStats` prints `Min` and `Max` as `0`,
but `avg /= success_count` divides by zero, so the printed average is the
IEEE NaN (`none` in the model), not the `0` the claim requires. -/
theorem C1_no_success_avg_is_nan :
    PrintStats [] = (0, none, 0) ∧
    PrintStats [⟨false, 5⟩, ⟨false, 7⟩] = (0, none, 0) := by
  constructor <;> norm_num [PrintStats, PrintStatsAux]

/-- Claim C2, counterexample: in `"a"" b"` the `""` escape appends one
literal quote to the token but toggles quote mode off, so the following
space splits — the result is `a"` and `b`, not the single token `a" b` the
claim (which says the scanner stays in in-quote mode) predicts. -/
theorem C2_counterexample :
    Split "\x22a\x22\x22 b\x22" ' ' = ["a\x22", "b"] ∧
    Split "\x22a\x22\x22 b\x22" ' ' ≠ ["a\x22 b"] := by
  constructor <;> decide

/-- Claim C2 as amended: on reading two consecutive double-quotes in
in-quote mode the tokenizer appends exactly one literal double-quote to the
current token and toggles quote mode, leaving in-quote mode (a later quote
must re-enter it for subsequent separators to stay literal). -/
theorem C2_escape_appends_quote_and_leaves_quote_mode
    (rest : List Char) (result : List String) (arg : String) :
    splitCore ' ' ('"' :: '"' :: rest) result arg true =
      splitCore ' ' rest result (arg.push '"') false := by
  rfl

/-- Claim C3, counterexample: `Split` does not treat a newline as a
separator outside quotes — it deletes it, so `a\nb` tokenizes to the single
token `ab`, while splitting on runs of spaces/newlines gives `a`, `b`. -/
theorem C3_counterexample :
    Split "a\nb" ' ' = ["ab"] ∧ specWsSplit "a\nb" = ["a", "b"] ∧
    Split "a\nb" ' ' ≠ specWsSplit "a\nb" := by
  refine ⟨by decide, by decide, by decide⟩

/-- Claim C4, counterexample: the quote-closing branch pushes the
accumulated text unconditionally, so `Split` can return an empty token:
tokenizing `""x` pushes the empty accumulated text when the second quote is
read. -/
theorem C4_counterexample :
    Split "\x22\x22x" ' ' = ["", "x"] ∧ "" ∈ Split "\x22\x22x" ' ' := by
  refine ⟨by decide, by decide⟩

/-- A `String` whose `isEmpty` test succeeds is the empty string. -/
lemma eq_empty_of_isEmpty (s : String) (h : s.isEmpty = true) : s = "" :=
  (String.isEmpty_iff s).mp h

@[simp]
lemma empty_string_isEmpty : "".isEmpty = true := rfl


/-- On a quote-free suffix, the scanner out of quote mode behaves as the
space splitter applied to the newline-free remainder: spaces split (when
the accumulated text is non-empty), newlines are deleted, and every other
character is appended. -/
lemma splitCore_no_quote (cs : List Char) :
    ∀ result arg, '"' ∉ cs →
      splitCore ' ' cs result arg false =
        specWsSplitAux (cs.filter (fun c => c ≠ '\n')) result arg := by
  induction cs with
  | nil => intro result arg h; simp [splitCore, specWsSplitAux, flushArg]
  | cons c rest ih =>
      intro result arg h
      have hc : c ≠ '"' := fun hq => h (hq ▸ List.mem_cons_self c rest)
      have hrest : '"' ∉ rest := fun hq => h (List.mem_cons_of_mem c hq)
      cases rest with
      | nil =>
          by_cases h1 : c = ' '
          · subst h1
            by_cases h2 : arg.isEmpty
            · have h4 := eq_empty_of_isEmpty arg h2
              subst h4
              simp [splitCore, specWsSplitAux, flushArg]
            · simp [splitCore, specWsSplitAux, flushArg, h2]
          · by_cases h3 : c = '\n'
            · subst h3
              simp [splitCore, specWsSplitAux, flushArg]
            · simp [splitCore, specWsSplitAux, flushArg, h1, h3, hc]
      | cons next rest2 =>
          by_cases h1 : c = ' '
          · subst h1
            by_cases h2 : arg.isEmpty
            · have h4 := eq_empty_of_isEmpty arg h2
              subst h4
              simp only [splitCore, specWsSplitAux]
              simp [h2, ih _ _ hrest]
            · simp only [splitCore, specWsSplitAux]
              simp [h2, ih _ _ hrest]
          · by_cases h3 : c = '\n'
            · subst h3
              simp [splitCore, specWsSplitAux, ih _ _ hrest]
            · simp [splitCore, specWsSplitAux, h1, h3, hc, ih _ _ hrest]

/-- Claim C3 as amended: for commands without double quotes, `Split` equals
deleting the newline characters and then splitting the remainder on runs of
separators — a newline does not separate tokens; one between two non-space
characters joins them into a single token. -/
theorem C3_no_quote_tokenize (s : String) (h : '"' ∉ s.data) :
    Split s ' ' = specWsSplit ⟨s.data.filter (fun c => c ≠ '\n')⟩ :=
  splitCore_no_quote s.data [] "" h

/-- Claim C3, witness: `"a b\nc"` tokenizes as the newline-deleted,
space-split list `["a", "bc"]`. -/
theorem C3_no_quote_tokenize_witness :
    Split "a b\nc" ' ' = ["a", "bc"] ∧ '"' ∉ ("a b\nc").data ∧
    Split "a b\nc" ' ' = specWsSplit ⟨("a b\nc").data.filter (fun c => c ≠ '\n')⟩ :=
  ⟨by decide, by decide, C3_no_quote_tokenize "a b\nc" (by decide)⟩

/-- Every token `specWsSplitAux` adds to an all-non-empty accumulator is
non-empty. -/
lemma specWsSplitAux_ne_empty (cs : List Char) :
    ∀ result arg, (∀ t ∈ result, t ≠ "") →
      ∀ t ∈ specWsSplitAux cs result arg, t ≠ "" := by
  induction cs with
  | nil =>
      intro result arg hres t ht
      by_cases h2 : arg.isEmpty
      · simp only [specWsSplitAux, h2, if_pos] at ht
        exact hres t ht
      · simp only [specWsSplitAux, h2] at ht
        rcases List.mem_append.mp ht with h3 | h3
        · exact hres t h3
        · have h4 : t = arg := List.mem_singleton.mp h3
          subst h4
          intro h5
          exact h2 (h5 ▸ rfl)
  | cons c rest ih =>
      intro result arg hres t ht
      by_cases h1 : c = ' ' ∨ c = '\n'
      · by_cases h2 : arg.isEmpty
        · simp only [specWsSplitAux, h1, h2, if_pos, if_true] at ht
          exact ih result "" hres t ht
        · simp only [specWsSplitAux, h1, h2, if_true, if_false] at ht
          refine ih (result ++ [arg]) "" ?_ t ht
          intro u hu
          rcases List.mem_append.mp hu with h3 | h3
          · exact hres u h3
          · have h4 : u = arg := List.mem_singleton.mp h3
            subst h4
            intro h5
            exact h2 (h5 ▸ rfl)
      · simp only [specWsSplitAux, h1, if_false] at ht
        exact ih result (arg.push c) hres t ht

/-- Claim C4 as amended: tokens pushed at a separator or by the final
flush are non-empty, but the in-quote closing-quote branch pushes the
accumulated text unconditionally, so a command with double quotes can
produce an empty token; for every command without a double-quote character,
every token of the result is non-empty. -/
theorem C4_no_quote_tokens_nonempty (s : String) (h : '"' ∉ s.data) :
    ∀ t ∈ Split s ' ', t ≠ "" := by
  intro t ht
  have heq := splitCore_no_quote s.data [] "" h
  have ht2 : t ∈ specWsSplitAux (s.data.filter (fun c => c ≠ '\n')) [] "" := by
    rw [← heq]
    exact ht
  exact specWsSplitAux_ne_empty _ [] "" (by intro u hu; cases hu) t ht2

/-- Claim C4, witness: the quote-free command `"a  b"` yields only
non-empty tokens. -/
theorem C4_no_quote_tokens_nonempty_witness :
    Split "a  b" ' ' = ["a", "b"] ∧ '"' ∉ ("a  b").data ∧
    ∀ t ∈ Split "a  b" ' ', t ≠ "" :=
  ⟨by decide, by decide, C4_no_quote_tokens_nonempty "a  b" (by decide)⟩

/-- Claim C5: when fork succeeded and the wait completed successfully, the
invoker records `success = true` with the elapsed reading of the monotonic
clock (non-negative), and the result is independent of the child status
word `waitpid` stored — the code never reads it. -/
theorem C5_wait_success_ignores_child_status (strerror : Nat → String)
    (command : String) (os : OSEvents)
    (hf : os.forkFails = false) (hw : os.waitFails = false)
    (hm : os.startT ≤ os.endT) :
    runCommand strerror command os =
      .done { success := true, elapsed_us := os.endT - os.startT } ∧
    0 ≤ os.endT - os.startT ∧
    (∀ s : Int, runCommand strerror command { os with childStatus := s } =
      runCommand strerror command os) := by
  refine ⟨by simp [runCommand, hf, hw], by omega, ?_⟩
  intro s
  simp [runCommand]

/-- Claim C5, witness: fork and wait succeed, the child status word is the
non-zero `256` (a child that exited with status 1), and the record is still
`success = true` with elapsed 250µs ≥ 0. -/
theorem C5_wait_success_ignores_child_status_witness :
    (osW.forkFails = false ∧ osW.waitFails = false ∧ osW.startT ≤ osW.endT ∧
      osW.childStatus = 256) ∧
    (runCommand strerrorW "sleep 1" osW =
        .done { success := true, elapsed_us := osW.endT - osW.startT } ∧
      0 ≤ osW.endT - osW.startT ∧
      (∀ s : Int, runCommand strerrorW "sleep 1" { osW with childStatus := s } =
        runCommand strerrorW "sleep 1" osW)) :=
  ⟨⟨rfl, rfl, by decide, rfl⟩,
    C5_wait_success_ignores_child_status strerrorW "sleep 1" osW rfl rfl
      (by decide)⟩

/-- Claim C6: the failure exit codes are the contractual constants — the
child, after an exec failure with errno `e`, writes a diagnostic naming the
command and the OS error and exits `127` when `e` is `ENOENT` and `126`
otherwise; a fork failure or a wait failure terminates the whole program
with `125` after a diagnostic. -/
theorem C6_failure_exit_codes (strerror : Nat → String) (command : String)
    (e : Nat) (os : OSEvents) :
    childRun strerror command (some e) =
      .exited (if e = ENOENT then EXIT_ENOENT else EXIT_CANNOT_INVOKE)
        ("Cannot run \x27" ++ command ++ "\x27: " ++ strerror e) ∧
    EXIT_ENOENT = 127 ∧ EXIT_CANNOT_INVOKE = 126 ∧ EXIT_CANCELED = 125 ∧
    (os.forkFails = true →
      runCommand strerror command os =
        .fatal 125 ("Cannot fork: " ++ strerror os.forkErrno)) ∧
    (os.forkFails = false → os.waitFails = true →
      runCommand strerror command os =
        .fatal 125
          ("Failed waiting for \x27" ++ command ++ "\x27: " ++
            strerror os.waitErrno)) := by
  refine ⟨rfl, rfl, rfl, rfl, ?_, ?_⟩
  · intro hf
    simp [runCommand, hf, EXIT_CANCELED]
  · intro hf hw
    simp [runCommand, hf, hw, EXIT_CANCELED]

/-- Claim C6, witness: errno 2 (`ENOENT`) gives child exit 127, errno 13
(`EACCES`) gives 126, a failing fork gives program exit 125, and a failing
wait gives program exit 125, each with its diagnostic. -/
theorem C6_failure_exit_codes_witness :
    childRun strerrorW "foo" (some 2) = .exited 127 "Cannot run \x27foo\x27: E2" ∧
    childRun strerrorW "foo" (some 13) =
      .exited 126 "Cannot run \x27foo\x27: E13" ∧
    runCommand strerrorW "foo" osForkFailW = .fatal 125 "Cannot fork: E7" ∧
    runCommand strerrorW "foo" osWaitFailW =
      .fatal 125 "Failed waiting for \x27foo\x27: E9" := by
  refine ⟨?_, ?_, ?_, ?_⟩
  · have h := (C6_failure_exit_codes strerrorW "foo" 2 osForkFailW).1
    simpa [ENOENT, EXIT_ENOENT, strerrorW] using h
  · have h := (C6_failure_exit_codes strerrorW "foo" 13 osForkFailW).1
    simpa [ENOENT, EXIT_CANNOT_INVOKE, strerrorW] using h
  · exact (C6_failure_exit_codes strerrorW "foo" 2 osForkFailW).2.2.2.2.1 rfl
  · exact (C6_failure_exit_codes strerrorW "foo" 2 osWaitFailW).2.2.2.2.2 rfl rfl

/-- The nested fan-out loops assign slot `idx + k` to the command at index
`k / n`, for `k` ranging over `0, …, len·n - 1` in spawn order. -/
lemma assignSlots_eq (n : Nat) (hn : 0 < n) :
    ∀ (cs : List String) (idx : Nat),
      assignSlots cs n idx =
        (List.range (cs.length * n)).map
          (fun k => (idx + k, cs.getD (k / n) "")) := by
  intro cs
  induction cs with
  | nil => intro idx; simp [assignSlots]
  | cons c cs ih =>
      intro idx
      have hlen : (c :: cs).length * n = n + cs.length * n := by
        simp [List.length_cons, Nat.succ_mul, Nat.add_comm]
      rw [assignSlots, ih (idx + n), hlen, List.range_add, List.map_append,
        List.map_map]
      congr 1
      · apply List.map_congr_left
        intro j hj
        have hj2 : j < n := List.mem_range.mp hj
        have hj3 : j / n = 0 := Nat.div_eq_of_lt hj2
        simp [hj3]
      · apply List.map_congr_left
        intro k hk
        have h1 : (n + k) / n = k / n + 1 := by
          rw [Nat.add_comm n k, Nat.add_div_right _ hn]
        simp [Function.comp, h1, Nat.add_assoc]

/-- Claim C7: the dispatcher pre-sizes exactly `len(commands) · n` result
slots; slot indices are assigned monotonically in the nested
command-then-replica order (slot `k` belongs to command `k / n`), each slot
index occurs exactly once, and after the join every slot `k` holds the
result of its own task. -/
theorem C7_slot_assignment (run : String → Stats) (commands : List String)
    (n : Nat) (_hc : commands ≠ []) (hn : 1 ≤ n) :
    (dispatchStats run commands n).length = commands.length * n ∧
    (assignSlots commands n 0).map Prod.fst = List.range (commands.length * n) ∧
    ((assignSlots commands n 0).map Prod.fst).Nodup ∧
    (∀ k, k < commands.length * n →
      (assignSlots commands n 0).getD k (0, "") =
        (k, commands.getD (k / n) "")) ∧
    dispatchStats run commands n =
      (List.range (commands.length * n)).map
        (fun k => run (commands.getD (k / n) "")) := by
  have h0 := assignSlots_eq n hn commands 0
  simp only [Nat.zero_add] at h0
  have hfst : (assignSlots commands n 0).map Prod.fst =
      List.range (commands.length * n) := by
    rw [h0, List.map_map]
    have hcomp : (Prod.fst ∘ fun k => (k, commands.getD (k / n) "")) = id := by
      funext k
      rfl
    rw [hcomp, List.map_id]
  refine ⟨?_, hfst, ?_, ?_, ?_⟩
  · simp [dispatchStats, h0]
  · rw [hfst]; exact List.nodup_range (commands.length * n)
  · intro k hk
    rw [h0, List.getD_eq_getElem?_getD, List.getElem?_map,
      List.getElem?_range hk]
    rfl
  · simp [dispatchStats, h0, List.map_map]

/-- Claim C7, witness: two commands with parallelism 2 give four slots, in
nested order, each holding its own task's result. -/
theorem C7_slot_assignment_witness :
    ((["a", "bb"] : List String) ≠ [] ∧ 1 ≤ 2) ∧
    dispatchStats runW ["a", "bb"] 2 =
      [⟨true, 1⟩, ⟨true, 1⟩, ⟨true, 2⟩, ⟨true, 2⟩] ∧
    ((dispatchStats runW ["a", "bb"] 2).length =
        (["a", "bb"] : List String).length * 2 ∧
      (assignSlots ["a", "bb"] 2 0).map Prod.fst =
        List.range ((["a", "bb"] : List String).length * 2) ∧
      ((assignSlots ["a", "bb"] 2 0).map Prod.fst).Nodup ∧
      (∀ k, k < (["a", "bb"] : List String).length * 2 →
        (assignSlots ["a", "bb"] 2 0).getD k (0, "") =
          (k, (["a", "bb"] : List String).getD (k / 2) "")) ∧
      dispatchStats runW ["a", "bb"] 2 =
        (List.range ((["a", "bb"] : List String).length * 2)).map
          (fun k => runW ((["a", "bb"] : List String).getD (k / 2) ""))) :=
  ⟨⟨by decide, by decide⟩, by decide,
    C7_slot_assignment runW ["a", "bb"] 2 (by decide) (by decide)⟩

/-- With `parallelism = 0` the fan-out loops run zero times. -/
lemma assignSlots_zero (cs : List String) : ∀ idx, assignSlots cs 0 idx = [] := by
  induction cs with
  | nil => intro idx; rfl
  | cons c cs ih => intro idx; simp [assignSlots, ih]

/-- On a suffix containing no `-n`/`--n` flag, the argument loop appends
every argument to the command list and keeps the current parallelism. -/
lemma parseArgsLoop_no_flags (cs : List String) :
    ∀ (acc : List String) (par : Nat), (∀ c ∈ cs, ¬(c = "-n" ∨ c = "--n")) →
      parseArgsLoop cs acc par =
        (if (acc ++ cs).isEmpty then none else some (acc ++ cs, par)) := by
  induction cs with
  | nil => intro acc par h; simp [parseArgsLoop]
  | cons c cs ih =>
      intro acc par h
      have hc : ¬(c = "-n" ∨ c = "--n") := h c (List.mem_cons_self c cs)
      have hcs : ∀ x ∈ cs, ¬(x = "-n" ∨ x = "--n") :=
        fun x hx => h x (List.mem_cons_of_mem c hx)
      rw [parseArgsLoop.eq_def]
      simp only [hc, if_false]
      rw [ih (acc ++ [c]) par hcs]
      simp [List.append_assoc]

/-- Claim C10: `ParseArgs` accepts `-n 0` without a usage error, producing
parallelism `0`; the dispatcher then creates zero slots and zero tasks and
the statistics run over the empty result set; a negative `-n` value passes
through the `int` → `size_t` conversion (mod `2⁶⁴`) instead of being
rejected. -/
theorem C10_parallelism_not_validated (cmds : List String) (h1 : cmds ≠ [])
    (h2 : ∀ c ∈ cmds, ¬(c = "-n" ∨ c = "--n")) :
    ParseArgs ("-n" :: "0" :: cmds) = some (cmds, 0) ∧
    (∀ run : String → Stats, dispatchStats run cmds 0 = []) ∧
    PrintStats (dispatchStats runW cmds 0) = (0, none, 0) ∧
    ParseArgs ["-n", "-2", "x"] = some (["x"], 2 ^ 64 - 2) := by
  refine ⟨?_, ?_, ?_, ?_⟩
  · have hstep : ParseArgs ("-n" :: "0" :: cmds) = parseArgsLoop cmds [] 0 := rfl
    rw [hstep, parseArgsLoop_no_flags cmds [] 0 h2]
    simp [h1]
  · intro run
    simp [dispatchStats, assignSlots_zero]
  · have hempty : dispatchStats runW cmds 0 = [] := by
      simp [dispatchStats, assignSlots_zero]
    rw [hempty]
    norm_num [PrintStats, PrintStatsAux]
  · decide

/-- Unfolding of `successElapsed` over a cons cell. -/
lemma successElapsed_cons (s : Stats) (rest : List Stats) :
    successElapsed (s :: rest) =
      if s.success then (s.elapsed_us : ℚ) :: successElapsed rest
      else successElapsed rest := by
  by_cases hs : s.success <;> simp [successElapsed, List.filter_cons, hs]

/-- After the first success the aggregation loop folds `min`/`max` and sums
over the remaining successful elapsed values. -/
lemma printStatsAux_pos (stats : List Stats) :
    ∀ (mn av mx : ℚ) (c : Nat), c ≠ 0 →
      PrintStatsAux stats mn av mx c =
        ((successElapsed stats).foldl min mn,
          av + (successElapsed stats).sum,
          (successElapsed stats).foldl max mx,
          c + (successElapsed stats).length) := by
  induction stats with
  | nil =>
      intro mn av mx c hc
      simp [PrintStatsAux, successElapsed]
  | cons s rest ih =>
      intro mn av mx c hc
      by_cases hs : s.success
      · rw [PrintStatsAux.eq_def]
        simp only [hs, if_true, hc, if_false, if_neg hc]
        rw [ih (min mn (s.elapsed_us : ℚ)) (av + (s.elapsed_us : ℚ))
          (max mx (s.elapsed_us : ℚ)) (c + 1) (Nat.succ_ne_zero c)]
        rw [successElapsed_cons]
        simp only [hs, if_true, List.foldl_cons, List.sum_cons,
          List.length_cons]
        refine congrArg₂ Prod.mk rfl (congrArg₂ Prod.mk ?_ (congrArg₂ Prod.mk rfl ?_))
        · ring
        · omega
      · rw [PrintStatsAux.eq_def]
        simp only [hs, if_false]
        rw [ih mn av mx c hc, successElapsed_cons]
        simp [hs]

/-- Starting from the zero state, the aggregation loop computes fold-min,
sum, fold-max and count of the successful elapsed values, seeded by the
first success. -/
lemma printStatsAux_first (stats : List Stats) :
    ∀ (e : ℚ) (l : List ℚ), successElapsed stats = e :: l →
      PrintStatsAux stats 0 0 0 0 =
        (l.foldl min e, e + l.sum, l.foldl max e, 1 + l.length) := by
  induction stats with
  | nil =>
      intro e l h
      simp [successElapsed] at h
  | cons s rest ih =>
      intro e l h
      rw [successElapsed_cons] at h
      by_cases hs : s.success
      · simp only [hs, if_true, List.cons.injEq] at h
        obtain ⟨he, hl⟩ := h
        rw [PrintStatsAux.eq_def]
        simp only [hs, if_true, if_pos rfl]
        rw [printStatsAux_pos rest (s.elapsed_us : ℚ) (s.elapsed_us : ℚ)
          (s.elapsed_us : ℚ) 1 one_ne_zero, hl, he]
      · simp only [hs, if_false] at h
        rw [PrintStatsAux.eq_def]
        simp only [hs, if_false]
        exact ih e l h

/-- With no successful entry the aggregation loop keeps its zero state. -/
lemma printStatsAux_none (stats : List Stats) (h : successElapsed stats = []) :
    PrintStatsAux stats 0 0 0 0 = (0, 0, 0, 0) := by
  induction stats with
  | nil => rfl
  | cons s rest ih =>
      rw [successElapsed_cons] at h
      by_cases hs : s.success
      · simp [hs] at h
      · simp only [hs, if_false] at h
        rw [PrintStatsAux.eq_def]
        simp only [hs, if_false]
        exact ih h

/-- The printed statistics depend only on the successful elapsed values. -/
lemma printStats_congr (s1 s2 : List Stats)
    (h : successElapsed s1 = successElapsed s2) :
    PrintStats s1 = PrintStats s2 := by
  cases hl : successElapsed s1 with
  | nil =>
      have hl2 : successElapsed s2 = [] := h ▸ hl
      simp only [PrintStats, printStatsAux_none s1 hl, printStatsAux_none s2 hl2]
  | cons e l =>
      have hl2 : successElapsed s2 = e :: l := h ▸ hl
      simp only [PrintStats, printStatsAux_first s1 e l hl,
        printStatsAux_first s2 e l hl2]

/-- Filtering to the successful entries does not change the successful
elapsed values. -/
lemma successElapsed_filter (stats : List Stats) :
    successElapsed (stats.filter (fun s => s.success)) = successElapsed stats := by
  simp [successElapsed, List.filter_filter]

/-- The fold of `min` over a list is a member of the seed-extended list. -/
lemma foldl_min_mem (l : List ℚ) : ∀ x : ℚ, l.foldl min x ∈ x :: l := by
  induction l with
  | nil => intro x; simp
  | cons y l ih =>
      intro x
      rw [List.foldl_cons]
      rcases List.mem_cons.mp (ih (min x y)) with h2 | h2
      · rw [h2]
        rcases min_choice x y with h | h
        · rw [h]
          exact List.mem_cons_self x (y :: l)
        · rw [h]
          exact List.mem_cons_of_mem x (List.mem_cons_self y l)
      · exact List.mem_cons_of_mem x (List.mem_cons_of_mem y h2)

/-- The fold of `min` is below its seed. -/
lemma foldl_min_le_seed (l : List ℚ) : ∀ x : ℚ, l.foldl min x ≤ x := by
  induction l with
  | nil => intro x; simp
  | cons y l ih =>
      intro x
      rw [List.foldl_cons]
      exact le_trans (ih (min x y)) (min_le_left x y)

/-- The fold of `min` is below every list element. -/
lemma foldl_min_le_mem (l : List ℚ) :
    ∀ (x y : ℚ), y ∈ l → l.foldl min x ≤ y := by
  induction l with
  | nil => intro x y hy; cases hy
  | cons z l ih =>
      intro x y hy
      rw [List.foldl_cons]
      rcases List.mem_cons.mp hy with h | h
      · subst h
        exact le_trans (foldl_min_le_seed l (min x y)) (min_le_right x y)
      · exact ih (min x z) y h

/-- The fold of `max` over a list is a member of the seed-extended list. -/
lemma foldl_max_mem (l : List ℚ) : ∀ x : ℚ, l.foldl max x ∈ x :: l := by
  induction l with
  | nil => intro x; simp
  | cons y l ih =>
      intro x
      rw [List.foldl_cons]
      rcases List.mem_cons.mp (ih (max x y)) with h2 | h2
      · rw [h2]
        rcases max_choice x y with h | h
        · rw [h]
          exact List.mem_cons_self x (y :: l)
        · rw [h]
          exact List.mem_cons_of_mem x (List.mem_cons_self y l)
      · exact List.mem_cons_of_mem x (List.mem_cons_of_mem y h2)

/-- The fold of `max` is above its seed. -/
lemma seed_le_foldl_max (l : List ℚ) : ∀ x : ℚ, x ≤ l.foldl max x := by
  induction l with
  | nil => intro x; simp
  | cons y l ih =>
      intro x
      rw [List.foldl_cons]
      exact le_trans (le_max_left x y) (ih (max x y))

/-- The fold of `max` is above every list element. -/
lemma mem_le_foldl_max (l : List ℚ) :
    ∀ (x y : ℚ), y ∈ l → y ≤ l.foldl max x := by
  induction l with
  | nil => intro x y hy; cases hy
  | cons z l ih =>
      intro x y hy
      rw [List.foldl_cons]
      rcases List.mem_cons.mp hy with h | h
      · subst h
        exact le_trans (le_max_right x y) (seed_le_foldl_max l (max x y))
      · exact ih (max x z) y h

/-- Claim C8: with at least one success, the printed `Min` and `Max` are
the least and greatest successful elapsed duration and `Avg` is their exact
arithmetic mean, each divided by 1000 (exact rational division — no
rounding to an integer), and the failed entries have no influence. -/
theorem C8_stats_over_successes (stats : List Stats)
    (h : successElapsed stats ≠ []) :
    PrintStats stats =
      (listMin (successElapsed stats) / 1000,
        some ((successElapsed stats).sum /
          ((successElapsed stats).length : ℚ) / 1000),
        listMax (successElapsed stats) / 1000) ∧
    PrintStats stats = PrintStats (stats.filter (fun s => s.success)) ∧
    listMin (successElapsed stats) ∈ successElapsed stats ∧
    (∀ x ∈ successElapsed stats, listMin (successElapsed stats) ≤ x) ∧
    listMax (successElapsed stats) ∈ successElapsed stats ∧
    (∀ x ∈ successElapsed stats, x ≤ listMax (successElapsed stats)) := by
  obtain ⟨e, l, hl⟩ : ∃ e l, successElapsed stats = e :: l := by
    cases hsE : successElapsed stats with
    | nil => exact absurd hsE h
    | cons a b => exact ⟨a, b, rfl⟩
  refine ⟨?_, printStats_congr stats _ (successElapsed_filter stats).symm,
    ?_, ?_, ?_, ?_⟩
  · simp only [PrintStats, printStatsAux_first stats e l hl, hl]
    have hc : (1 + l.length : Nat) ≠ 0 := by omega
    simp only [hc, if_false, listMin, listMax, List.sum_cons, List.length_cons,
      Option.map_some]
    refine congrArg₂ Prod.mk rfl (congrArg₂ Prod.mk ?_ rfl)
    have hcast : ((1 + l.length : Nat) : ℚ) = ((l.length + 1 : Nat) : ℚ) := by
      norm_cast
      omega
    rw [hcast]
    rfl
  · rw [hl]
    exact foldl_min_mem l e
  · intro x hx
    rw [hl] at hx ⊢
    rcases List.mem_cons.mp hx with hx2 | hx2
    · subst hx2
      exact foldl_min_le_seed l x
    · exact foldl_min_le_mem l e x hx2
  · rw [hl]
    exact foldl_max_mem l e
  · intro x hx
    rw [hl] at hx ⊢
    rcases List.mem_cons.mp hx with hx2 | hx2
    · subst hx2
      exact seed_le_foldl_max l x
    · exact mem_le_foldl_max l e x hx2

/-- Claim C8, witness: successes of 10000µs, 30000µs, 20000µs and one
failure print `Min: 10`, `Avg: 20`, `Max: 30` (milliseconds). -/
theorem C8_stats_over_successes_witness :
    PrintStats statsW = (10, some 20, 30) ∧
    successElapsed statsW ≠ [] ∧
    (PrintStats statsW =
        (listMin (successElapsed statsW) / 1000,
          some ((successElapsed statsW).sum /
            ((successElapsed statsW).length : ℚ) / 1000),
          listMax (successElapsed statsW) / 1000) ∧
      PrintStats statsW = PrintStats (statsW.filter (fun s => s.success)) ∧
      listMin (successElapsed statsW) ∈ successElapsed statsW ∧
      (∀ x ∈ successElapsed statsW, listMin (successElapsed statsW) ≤ x) ∧
      listMax (successElapsed statsW) ∈ successElapsed statsW ∧
      (∀ x ∈ successElapsed statsW, x ≤ listMax (successElapsed statsW))) :=
  ⟨by norm_num [statsW, PrintStats, PrintStatsAux],
    by decide,
    C8_stats_over_successes statsW (by decide)⟩

/-- Claim C10, witness: `-n 0 x` parses to parallelism 0 with command `x`,
zero slots are created, and the stats lines are computed over no results. -/
theorem C10_parallelism_not_validated_witness :
    ((["x"] : List String) ≠ [] ∧
      ∀ c ∈ (["x"] : List String), ¬(c = "-n" ∨ c = "--n")) ∧
    (ParseArgs ("-n" :: "0" :: ["x"]) = some (["x"], 0) ∧
      (∀ run : String → Stats, dispatchStats run ["x"] 0 = []) ∧
      PrintStats (dispatchStats runW ["x"] 0) = (0, none, 0) ∧
      ParseArgs ["-n", "-2", "x"] = some (["x"], 2 ^ 64 - 2)) :=
  ⟨⟨by decide, by decide⟩,
    C10_parallelism_not_validated ["x"] (by decide) (by decide)⟩

/-- Sanity check: the empty and the all-whitespace command tokenize to the
empty argument list; the child then builds an exec argument vector holding
only the terminating null pointer (a null first element, not an empty
string), and an exec failure for the empty command takes the same
diagnostic path as any other exec failure. -/
lemma split_empty_and_whitespace :
    Split "" ' ' = [] ∧ Split "   \n  " ' ' = [] ∧ childArgs "" = [none] ∧
    (∀ (strerror : Nat → String) (e : Nat),
      childRun strerror "" (some e) =
        .exited (if e = ENOENT then EXIT_ENOENT else EXIT_CANNOT_INVOKE)
          ("Cannot run \x27\x27: " ++ strerror e)) :=
  ⟨rfl, by decide, rfl, fun strerror e => rfl⟩

end Parallel
